import Mathlib

/-!
Shallow embedding of the burak-vtk converter (`src/main.rs`): a CSV of
coordinate-tagged complex vector-field samples is turned into dense
rectilinear-grid arrays in three stages — span discovery
(`determine_spans`), grid reshaping (the nested loop of `main`,
embedded here as `reshape`), and the per-cell magnitude computation
(`magnitude_complex`).

Modelling choices:
* an `f64` is `F := Option ℚ` — `none` is NaN, `some q` a (finite)
  value denoting the rational `q`; the IEEE `==` used by
  `Vec::contains` is `feq`, on which NaN is unequal to everything
  including itself;
* each result of the csv reader's `deserialize()` iterator is an
  `Option CsvData` (`none` = the row failed to parse);
* errors produced with `bail!` / `with_context` are the constructors
  of `Err`, keeping the data the messages interpolate (line numbers,
  cell coordinates);
* `ndarray` arrays carry their shape and a total value function;
  indexing is bounds-checked (`set4`, `index4`, `set3`) with the
  out-of-bounds panic modelled as `Err.panic` / `Option.none`;
* the square root of the magnitude computation lands in `Option ℝ`
  (`none` = NaN), via `fsqrt`.
-/

/-- An IEEE double as the program uses it: `none` is NaN, `some q` is a
finite value denoting the rational `q`. -/
abbrev F : Type := Option ℚ

/-- IEEE `==` on doubles (Rust `PartialEq` for `f64`): NaN compares
unequal to everything, including itself; finite values compare by
numeric value. -/
def feq : F → F → Bool
  | some a, some b => a == b
  | _, _ => false

/-- Column headers of the CSV file (`struct CsvData`, main.rs lines 9–27). -/
structure CsvData where
  x : F
  y : F
  z : F
  u1r : F
  u2r : F
  u3r : F
  u1i : F
  u2i : F
  u3i : F
  w1r : F
  w2r : F
  w3r : F
  w1i : F
  w2i : F
  w3i : F
deriving DecidableEq

/-- The error values the program can abort with, keeping the data that the
`anyhow` messages interpolate. -/
inductive Err where
  /-- "failed to serialize row {line} of csv" (`line` is the 1-based file
  line, i.e. 0-based data row index + 2, accounting for the header). -/
  | parse (line : Nat)
  /-- "CSV was shorter than expected, unable to find data point for
  ({i},{j},{k}) ...". -/
  | shortCsv (i j k : Nat)
  /-- "unread data in csv - this should not happen". -/
  | leftover
  /-- An out-of-bounds `ndarray` index (a Rust panic). -/
  | panic
deriving DecidableEq

/-- One span-discovery insertion (main.rs lines 100–108): push the
coordinate onto the axis list only when `contains` — a linear scan using
IEEE `==` — does not find it. -/
def addDistinct (xs : List F) (v : F) : List F :=
  if xs.any (fun a => feq a v) then xs else xs ++ [v]

/-- The row loop of `determine_spans` (main.rs lines 96–109): walk the
enumerated parse results, aborting on the first malformed row, and
accumulate the three axis lists. -/
def determine_spansAux : Nat → List (Option CsvData) → List F → List F → List F →
    Except Err (List F × List F × List F)
  | _, [], xs, ys, zs => .ok (xs, ys, zs)
  | idx, none :: _, _, _, _ => .error (.parse (idx + 2))
  | idx, some row :: rest, xs, ys, zs =>
      determine_spansAux (idx + 1) rest (addDistinct xs row.x) (addDistinct ys row.y)
        (addDistinct zs row.z)

/-- `determine_spans` (main.rs lines 86–114): first pass over the file,
returning the spans `(x.len(), y.len(), z.len())` and the mesh
`(x, y, z)`. -/
def determine_spans (rows : List (Option CsvData)) :
    Except Err ((Nat × Nat × Nat) × (List F × List F × List F)) :=
  match determine_spansAux 0 rows [] [] [] with
  | .error e => .error e
  | .ok (xs, ys, zs) => .ok ((xs.length, ys.length, zs.length), (xs, ys, zs))

/-- A sample row with the given coordinates and all twelve field values
zero (used for concrete test inputs). -/
def mkRow (x y z : F) : CsvData :=
  ⟨x, y, z, some 0, some 0, some 0, some 0, some 0, some 0,
    some 0, some 0, some 0, some 0, some 0, some 0⟩

/-- An `ndarray::Array4<f64>`: a shape `(d0, d1, d2, d3)` together with the
cell values. -/
structure Array4 where
  d0 : Nat
  d1 : Nat
  d2 : Nat
  d3 : Nat
  val : Nat → Nat → Nat → Nat → F

/-- `Array4::zeros((d0, d1, d2, d3))`. -/
def zeros4 (d0 d1 d2 d3 : Nat) : Array4 :=
  ⟨d0, d1, d2, d3, fun _ _ _ _ => some 0⟩

/-- Pointwise update of a 4-index value function. -/
def upd4 (f : Nat → Nat → Nat → Nat → F) (c i j k : Nat) (v : F) :
    Nat → Nat → Nat → Nat → F :=
  fun c2 i2 j2 k2 => if c2 = c ∧ i2 = i ∧ j2 = j ∧ k2 = k then v else f c2 i2 j2 k2

/-- `ndarray` write `a[[c, i, j, k]] = v`: out-of-bounds indexing panics,
modelled as `none`. -/
def set4 (a : Array4) (c i j k : Nat) (v : F) : Option Array4 :=
  if c < a.d0 ∧ i < a.d1 ∧ j < a.d2 ∧ k < a.d3 then
    some ⟨a.d0, a.d1, a.d2, a.d3, upd4 a.val c i j k v⟩
  else none

/-- `ndarray` read `a[[c, i, j, k]]`: out-of-bounds indexing panics,
modelled as `none`. -/
def index4 (a : Array4) (c i j k : Nat) : Option F :=
  if c < a.d0 ∧ i < a.d1 ∧ j < a.d2 ∧ k < a.d3 then some (a.val c i j k) else none

/-- The four vector-field arrays the reshaping loop of `main` fills
(main.rs lines 148–152; the two magnitude arrays are produced later by
`magnitude_complex`). -/
structure St where
  real_velocity : Array4
  imaginary_velocity : Array4
  real_w : Array4
  imaginary_w : Array4

/-- The freshly allocated zero arrays of `main` (lines 148–152), each of
shape `(3, nx, ny, nz)`. -/
def initSt (nx ny nz : Nat) : St :=
  ⟨zeros4 3 nx ny nz, zeros4 3 nx ny nz, zeros4 3 nx ny nz, zeros4 3 nx ny nz⟩

/-- The loop body of main.rs lines 173–187: write the twelve field values
of one row into the four vector arrays at spatial cell `(i, j, k)`,
component-indexed. -/
def writeRow (s : St) (row : CsvData) (i j k : Nat) : Option St := do
  let rv0 ← set4 s.real_velocity 0 i j k row.u1r
  let rv1 ← set4 rv0 1 i j k row.u2r
  let rv2 ← set4 rv1 2 i j k row.u3r
  let iv0 ← set4 s.imaginary_velocity 0 i j k row.u1i
  let iv1 ← set4 iv0 1 i j k row.u2i
  let iv2 ← set4 iv1 2 i j k row.u3i
  let rw0 ← set4 s.real_w 0 i j k row.w1r
  let rw1 ← set4 rw0 1 i j k row.w2r
  let rw2 ← set4 rw1 2 i j k row.w3r
  let iw0 ← set4 s.imaginary_w 0 i j k row.w1i
  let iw1 ← set4 iw0 1 i j k row.w2i
  let iw2 ← set4 iw1 2 i j k row.w3i
  some ⟨rv2, iv2, rw2, iw2⟩

/-- The cell coordinates `(i, j, k)` in the order the triple-nested loop
of main.rs lines 155–157 visits them: outer over `0..nx`, middle over
`0..ny`, inner over `0..nz`. -/
def cellList (nx ny nz : Nat) : List (Nat × Nat × Nat) :=
  (List.range nx).flatMap fun i =>
    (List.range ny).flatMap fun j =>
      (List.range nz).map fun k => (i, j, k)

/-- The reshaping loop of main.rs lines 155–190: for each cell in
traversal order, consume the next enumerated parse result, failing when
the iterator is exhausted (`shortCsv`), the row is malformed (`parse`),
or a write goes out of bounds (`panic`). Returns the filled state, the
final enumeration index and the unconsumed rows. -/
def reshapeAux (cells : List (Nat × Nat × Nat)) (idx : Nat)
    (rows : List (Option CsvData)) (s : St) :
    Except Err (St × Nat × List (Option CsvData)) :=
  match cells with
  | [] => .ok (s, idx, rows)
  | (i, j, k) :: cs =>
    match rows with
    | [] => .error (.shortCsv i j k)
    | none :: _ => .error (.parse (idx + 2))
    | some row :: rest =>
      match writeRow s row i j k with
      | none => .error .panic
      | some s2 => reshapeAux cs (idx + 1) rest s2

/-- The whole second pass of `main` (lines 145–194): allocate the zeroed
arrays, run the reshaping loop, then fail with `leftover` when
`iter.next()` still yields a row. -/
def reshape (nx ny nz : Nat) (rows : List (Option CsvData)) : Except Err St :=
  match reshapeAux (cellList nx ny nz) 0 rows (initSt nx ny nz) with
  | .error e => .error e
  | .ok (s, _, rest) =>
    match rest with
    | [] => .ok s
    | _ :: _ => .error .leftover

/-- The twelve field values of a row, in the order the loop body writes
them. -/
def rowVals (r : CsvData) : List F :=
  [r.u1r, r.u2r, r.u3r, r.u1i, r.u2i, r.u3i,
   r.w1r, r.w2r, r.w3r, r.w1i, r.w2i, r.w3i]

/-- The twelve array positions `(component, i, j, k)` of one spatial cell,
read back in the order the loop body writes them. -/
def cellOf (s : St) (p : Nat × Nat × Nat) : List F :=
  [s.real_velocity.val 0 p.1 p.2.1 p.2.2,
   s.real_velocity.val 1 p.1 p.2.1 p.2.2,
   s.real_velocity.val 2 p.1 p.2.1 p.2.2,
   s.imaginary_velocity.val 0 p.1 p.2.1 p.2.2,
   s.imaginary_velocity.val 1 p.1 p.2.1 p.2.2,
   s.imaginary_velocity.val 2 p.1 p.2.1 p.2.2,
   s.real_w.val 0 p.1 p.2.1 p.2.2,
   s.real_w.val 1 p.1 p.2.1 p.2.2,
   s.real_w.val 2 p.1 p.2.1 p.2.2,
   s.imaginary_w.val 0 p.1 p.2.1 p.2.2,
   s.imaginary_w.val 1 p.1 p.2.1 p.2.2,
   s.imaginary_w.val 2 p.1 p.2.1 p.2.2]

/-- Squaring of a double (`powi(2)`): NaN propagates. -/
def fsq : F → F
  | some a => some (a * a)
  | none => none

/-- Addition of doubles: NaN propagates. -/
def fadd : F → F → F
  | some a, some b => some (a + b)
  | _, _ => none

/-- `f64::sqrt` into the value space of the magnitude array: NaN in, or a
negative argument, gives NaN (`none`); otherwise the real square root. -/
noncomputable def fsqrt : F → Option ℝ
  | none => none
  | some a => if a < 0 then none else some (Real.sqrt (a : ℝ))

/-- An `ndarray::Array3<f64>` holding the magnitude field: a shape
`(d0, d1, d2)` and the cell values, `none` being NaN. -/
structure Array3 where
  d0 : Nat
  d1 : Nat
  d2 : Nat
  val : Nat → Nat → Nat → Option ℝ

/-- `Array3::zeros((d0, d1, d2))`. -/
def zeros3 (d0 d1 d2 : Nat) : Array3 :=
  ⟨d0, d1, d2, fun _ _ _ => some 0⟩

/-- Pointwise update of a 3-index value function. -/
def upd3 (f : Nat → Nat → Nat → Option ℝ) (i j k : Nat) (v : Option ℝ) :
    Nat → Nat → Nat → Option ℝ :=
  fun i2 j2 k2 => if i2 = i ∧ j2 = j ∧ k2 = k then v else f i2 j2 k2

/-- `ndarray` write `out[[i, j, k]] = v` with the out-of-bounds panic as
`none`. -/
def set3 (a : Array3) (i j k : Nat) (v : Option ℝ) : Option Array3 :=
  if i < a.d0 ∧ j < a.d1 ∧ k < a.d2 then
    some ⟨a.d0, a.d1, a.d2, upd3 a.val i j k v⟩
  else none

/-- The inner accumulation of `magnitude_complex` (main.rs lines 71–78):
`magnitude_squared += real[[v,i,j,k]].powi(2); magnitude_squared +=
im[[v,i,j,k]].powi(2)` over the component list, with panicking reads. -/
def magSqAux (real im : Array4) (i j k : Nat) : List Nat → F → Option F
  | [], acc => some acc
  | v :: vs, acc => do
    let a ← index4 real v i j k
    let b ← index4 im v i j k
    magSqAux real im i j k vs (fadd (fadd acc (fsq a)) (fsq b))

/-- The `magnitude_squared` value one cell of `magnitude_complex`
accumulates (starting from `0.`, components `0..3`). -/
def magSqCell (real im : Array4) (i j k : Nat) : Option F :=
  magSqAux real im i j k (List.range 3) (some 0)

/-- The cell loop of `magnitude_complex`: for each cell in traversal
order, accumulate the squared magnitude and store its square root. -/
noncomputable def magAux (real im : Array4) :
    List (Nat × Nat × Nat) → Array3 → Option Array3
  | [], out => some out
  | p :: ps, out =>
    match magSqCell real im p.1 p.2.1 p.2.2 with
    | none => none
    | some m =>
      match set3 out p.1 p.2.1 p.2.2 (fsqrt m) with
      | none => none
      | some out2 => magAux real im ps out2

/-- `magnitude_complex` (main.rs lines 60–84): write into `out[[i,j,k]]`
the square root of the sum of the squares of the six components at that
cell, over all cells of the `(nx, ny, nz)` traversal. -/
noncomputable def magnitude_complex (nx ny nz : Nat) (real im : Array4) (out : Array3) :
    Option Array3 :=
  magAux real im (cellList nx ny nz) out

/-- The cumulative effect of span discovery on one axis: fold
`addDistinct` of the accessed coordinate over the rows. -/
def spanFold (get : CsvData → F) (xs : List F) (rows : List CsvData) : List F :=
  rows.foldl (fun acc r => addDistinct acc (get r)) xs

/-- Shape facts for one vector array. -/
def hasDims (a : Array4) (nx ny nz : Nat) : Prop :=
  a.d0 = 3 ∧ a.d1 = nx ∧ a.d2 = ny ∧ a.d3 = nz

/-- Shape facts for the four arrays of the loop state. -/
def dimsOk (nx ny nz : Nat) (s : St) : Prop :=
  hasDims s.real_velocity nx ny nz ∧ hasDims s.imaginary_velocity nx ny nz ∧
    hasDims s.real_w nx ny nz ∧ hasDims s.imaginary_w nx ny nz

/-- Shape facts for the scalar output array. -/
def dims3 (a : Array3) (nx ny nz : Nat) : Prop :=
  a.d0 = nx ∧ a.d1 = ny ∧ a.d2 = nz

/-- The accumulated squared magnitude of one cell, in the exact
left-to-right order the loop adds the six squares. -/
def magSqVal (real im : Array4) (i j k : Nat) : F :=
  fadd (fadd (fadd (fadd (fadd (fadd (some 0)
    (fsq (real.val 0 i j k))) (fsq (im.val 0 i j k)))
    (fsq (real.val 1 i j k))) (fsq (im.val 1 i j k)))
    (fsq (real.val 2 i j k))) (fsq (im.val 2 i j k))

/-- The projection of a loop result that `reshape`'s epilogue can
observe: the error, or the state, final index and number of unconsumed
rows. -/
def resKey : Except Err (St × Nat × List (Option CsvData)) → Except Err (St × Nat × Nat) :=
  Except.map fun t => (t.1, t.2.1, t.2.2.length)

/-- Rows whose x coordinates appear in the order 2, 1, 2, 3. -/
def exampleRows : List CsvData :=
  [mkRow (some 2) (some 0) (some 0), mkRow (some 1) (some 0) (some 0),
   mkRow (some 2) (some 0) (some 0), mkRow (some 3) (some 0) (some 0)]

/-- Two rows whose x coordinate is NaN. -/
def nanRows : List CsvData :=
  [mkRow none (some 0) (some 0), mkRow none (some 0) (some 0)]

/-- A `(3, 1, 1, 1)`-shaped array holding the three given component
values at its single spatial cell. -/
def constArr4 (v0 v1 v2 : F) : Array4 :=
  ⟨3, 1, 1, 1, fun c _ _ _ => if c = 0 then v0 else if c = 1 then v1 else v2⟩

/-! ### Span-discovery lemmas -/

theorem feq_nan (a : F) : feq a none = false := by cases a <;> rfl

theorem feq_some_iff (a : F) (q : ℚ) : feq a (some q) = true ↔ a = some q := by
  cases a with
  | none => simp [feq]
  | some b => simp [feq]

theorem addDistinct_nan (xs : List F) : addDistinct xs none = xs ++ [none] := by
  have h : xs.any (fun a => feq a none) = false := by
    simp only [List.any_eq_false]
    intro a _
    simp [feq_nan]
  simp [addDistinct, h]

theorem count_addDistinct_nan (xs : List F) (v : F) :
    (addDistinct xs v).count none = xs.count none + (if v = none then 1 else 0) := by
  cases v with
  | none => simp [addDistinct_nan]
  | some q =>
    unfold addDistinct
    split
    · simp
    · simp [List.count_append]

theorem pairwise_addDistinct (xs : List F) (v : F)
    (h : xs.Pairwise (fun a b => feq a b = false)) :
    (addDistinct xs v).Pairwise (fun a b => feq a b = false) := by
  unfold addDistinct
  split
  · exact h
  · next hany =>
    rw [List.pairwise_append]
    refine ⟨h, List.pairwise_singleton _ _, ?_⟩
    intro a ha b hb
    simp only [List.mem_singleton] at hb
    subst hb
    simp only [List.any_eq_true, not_exists, not_and] at hany
    simpa using hany a ha

theorem mem_addDistinct (xs : List F) (v a : F) (h : a ∈ addDistinct xs v) :
    a ∈ xs ∨ a = v := by
  unfold addDistinct at h
  split at h
  · exact .inl h
  · rcases List.mem_append.1 h with h | h
    · exact .inl h
    · simp only [List.mem_singleton] at h
      exact .inr h

theorem some_mem_addDistinct_iff (xs : List F) (v : F) (q : ℚ) :
    some q ∈ addDistinct xs v ↔ some q ∈ xs ∨ v = some q := by
  constructor
  · intro h
    rcases mem_addDistinct xs v _ h with h | h
    · exact .inl h
    · exact .inr h.symm
  · intro h
    unfold addDistinct
    split
    · next hany =>
      rcases h with h | h
      · exact h
      · subst h
        rcases List.any_eq_true.1 hany with ⟨a, ha, hfa⟩
        rw [feq_some_iff] at hfa
        exact hfa ▸ ha
    · rcases h with h | h
      · exact List.mem_append_left _ h
      · subst h
        simp

theorem spanFold_cons (get : CsvData → F) (xs : List F) (r : CsvData) (rows : List CsvData) :
    spanFold get xs (r :: rows) = spanFold get (addDistinct xs (get r)) rows := rfl

theorem determine_spansAux_ok (rows : List CsvData) :
    ∀ idx xs ys zs,
      determine_spansAux idx (rows.map some) xs ys zs =
        .ok (spanFold (·.x) xs rows, spanFold (·.y) ys rows, spanFold (·.z) zs rows) := by
  induction rows with
  | nil => intros; rfl
  | cons r rs ih => intro idx xs ys zs; exact ih _ _ _ _

theorem determine_spans_ok (rows : List CsvData) :
    determine_spans (rows.map some) =
      .ok (((spanFold (·.x) [] rows).length, (spanFold (·.y) [] rows).length,
            (spanFold (·.z) [] rows).length),
           (spanFold (·.x) [] rows, spanFold (·.y) [] rows, spanFold (·.z) [] rows)) := by
  unfold determine_spans
  rw [determine_spansAux_ok]

theorem spanFold_pairwise (get : CsvData → F) (rows : List CsvData) :
    ∀ xs, xs.Pairwise (fun a b => feq a b = false) →
      (spanFold get xs rows).Pairwise (fun a b => feq a b = false) := by
  induction rows with
  | nil => intro xs h; exact h
  | cons r rs ih => intro xs h; exact ih _ (pairwise_addDistinct _ _ h)

theorem mem_spanFold (get : CsvData → F) (rows : List CsvData) :
    ∀ xs a, a ∈ spanFold get xs rows → a ∈ xs ∨ ∃ r ∈ rows, get r = a := by
  induction rows with
  | nil => intro xs a h; exact .inl h
  | cons r rs ih =>
    intro xs a h
    rcases ih _ _ h with h2 | ⟨r2, hr2, hget⟩
    · rcases mem_addDistinct _ _ _ h2 with h3 | h3
      · exact .inl h3
      · exact .inr ⟨r, by simp, h3.symm⟩
    · exact .inr ⟨r2, by simp [hr2], hget⟩

theorem some_mem_spanFold_iff (get : CsvData → F) (rows : List CsvData) :
    ∀ xs (q : ℚ),
      some q ∈ spanFold get xs rows ↔ some q ∈ xs ∨ ∃ r ∈ rows, get r = some q := by
  induction rows with
  | nil => simp [spanFold]
  | cons r rs ih =>
    intro xs q
    rw [spanFold_cons, ih, some_mem_addDistinct_iff]
    simp only [List.mem_cons]
    constructor
    · rintro (h | h)
      · rcases h with h | h
        · exact .inl h
        · exact .inr ⟨r, .inl rfl, h⟩
      · rcases h with ⟨r2, hr2, hg⟩
        exact .inr ⟨r2, .inr hr2, hg⟩
    · rintro (h | ⟨r2, hr2 | hr2, hg⟩)
      · exact .inl (.inl h)
      · exact .inl (.inr (hr2 ▸ hg))
      · exact .inr ⟨r2, hr2, hg⟩

theorem count_nan_spanFold (get : CsvData → F) (rows : List CsvData) :
    ∀ xs, (spanFold get xs rows).count none =
      xs.count none + (rows.map get).count none := by
  induction rows with
  | nil => simp [spanFold]
  | cons r rs ih =>
    intro xs
    rw [spanFold_cons, ih, count_addDistinct_nan, List.map_cons, List.count_cons]
    by_cases hg : get r = none <;> (simp [hg]; (try omega))

theorem spanFold_nodup (get : CsvData → F) (rows : List CsvData)
    (hnn : ∀ r ∈ rows, get r ≠ none) : (spanFold get [] rows).Nodup := by
  have hp := spanFold_pairwise get rows [] List.Pairwise.nil
  refine List.Pairwise.imp_of_mem ?_ hp
  intro a b ha hb hf heq
  subst heq
  rcases mem_spanFold get rows [] a ha with h | ⟨r, hr, hget⟩
  · simp at h
  · have : a ≠ none := hget ▸ hnn r hr
    rcases a with _ | qa
    · exact this rfl
    · simp [feq] at hf

theorem spanFold_toFinset (get : CsvData → F) (rows : List CsvData)
    (hnn : ∀ r ∈ rows, get r ≠ none) :
    (spanFold get [] rows).toFinset = (rows.map get).toFinset := by
  ext a
  simp only [List.mem_toFinset, List.mem_map]
  cases a with
  | none =>
    constructor
    · intro h
      rcases mem_spanFold get rows [] _ h with h | ⟨r, hr, hget⟩
      · simp at h
      · exact absurd hget (hnn r hr)
    · rintro ⟨r, hr, hget⟩
      exact absurd hget (hnn r hr)
  | some q =>
    rw [some_mem_spanFold_iff]
    simp

theorem spanFold_length (get : CsvData → F) (rows : List CsvData)
    (hnn : ∀ r ∈ rows, get r ≠ none) :
    (spanFold get [] rows).length = ((rows.map get).toFinset).card := by
  rw [← spanFold_toFinset get rows hnn]
  exact (List.toFinset_card_of_nodup (spanFold_nodup get rows hnn)).symm

theorem determine_spansAux_malformed (rest : List (Option CsvData)) :
    ∀ (pre : List CsvData) (idx : Nat) (xs ys zs : List F),
      determine_spansAux idx (pre.map some ++ none :: rest) xs ys zs =
        .error (.parse (idx + pre.length + 2)) := by
  intro pre
  induction pre with
  | nil => intros; rfl
  | cons r rs ih =>
    intro idx xs ys zs
    show determine_spansAux (idx + 1) (rs.map some ++ none :: rest) _ _ _ = _
    rw [ih]
    have h : idx + 1 + rs.length + 2 = idx + (r :: rs).length + 2 := by
      simp only [List.length_cons]
      omega
    rw [h]

/-! ### Cell-traversal arithmetic -/

theorem inner_decomp (n ny nz : Nat) :
    ((List.range ny).flatMap fun j => (List.range nz).map fun k => (n, j, k)) =
      (List.range (ny * nz)).map fun m => (n, m / nz, m % nz) := by
  induction ny with
  | zero => simp
  | succ b ih =>
    rw [List.range_succ, List.flatMap_append, ih, Nat.succ_mul, List.range_add,
      List.map_append]
    congr 1
    simp only [List.flatMap_cons, List.flatMap_nil, List.append_nil, List.map_map]
    refine List.map_congr_left ?_
    intro k hk
    rw [List.mem_range] at hk
    have hpos : 0 < nz := by omega
    simp only [Function.comp_apply]
    have h1 : (b * nz + k) / nz = b := by
      rw [show b * nz + k = nz * b + k from by ring, Nat.mul_add_div hpos,
        Nat.div_eq_of_lt hk, Nat.add_zero]
    have h2 : (b * nz + k) % nz = k := by
      rw [show b * nz + k = nz * b + k from by ring, Nat.mul_add_mod,
        Nat.mod_eq_of_lt hk]
    rw [h1, h2]

theorem cellList_decomp (nx ny nz : Nat) :
    cellList nx ny nz =
      (List.range (nx * (ny * nz))).map
        fun r => (r / (ny * nz), r % (ny * nz) / nz, r % (ny * nz) % nz) := by
  induction nx with
  | zero => simp [cellList]
  | succ n ih =>
    unfold cellList at ih ⊢
    rw [List.range_succ, List.flatMap_append, ih, Nat.succ_mul, List.range_add,
      List.map_append]
    congr 1
    simp only [List.flatMap_cons, List.flatMap_nil, List.append_nil, List.map_map]
    rw [inner_decomp]
    refine List.map_congr_left ?_
    intro m hm
    rw [List.mem_range] at hm
    have hpos : 0 < ny * nz := by omega
    simp only [Function.comp_apply]
    have h1 : (n * (ny * nz) + m) / (ny * nz) = n := by
      rw [show n * (ny * nz) + m = (ny * nz) * n + m from by ring,
        Nat.mul_add_div hpos, Nat.div_eq_of_lt hm, Nat.add_zero]
    have h2 : (n * (ny * nz) + m) % (ny * nz) = m := by
      rw [show n * (ny * nz) + m = (ny * nz) * n + m from by ring,
        Nat.mul_add_mod, Nat.mod_eq_of_lt hm]
    rw [h1, h2]

theorem decode_eq (ny nz r : Nat) :
    r % (ny * nz) / nz = r / nz % ny ∧ r % (ny * nz) % nz = r % nz := by
  constructor
  · rw [Nat.mul_comm ny nz]
    exact Nat.mod_mul_right_div_self r nz ny
  · exact Nat.mod_mod_of_dvd r ⟨ny, by ring⟩

/-- The nested loop visits, at step `r`, exactly the cell the claim's
div/mod formula names. -/
theorem cellList_eq_map (nx ny nz : Nat) :
    cellList nx ny nz =
      (List.range (nx * ny * nz)).map fun r => (r / (ny * nz), r / nz % ny, r % nz) := by
  rw [cellList_decomp, show nx * (ny * nz) = nx * ny * nz from by ring]
  refine List.map_congr_left ?_
  intro r _
  rw [(decode_eq ny nz r).1, (decode_eq ny nz r).2]

theorem cellList_length (nx ny nz : Nat) :
    (cellList nx ny nz).length = nx * ny * nz := by
  rw [cellList_eq_map]
  simp

theorem cellList_getElem (nx ny nz r : Nat) (h2 : r < (cellList nx ny nz).length) :
    (cellList nx ny nz)[r] = (r / (ny * nz), r / nz % ny, r % nz) := by
  rw [List.getElem_of_eq (cellList_eq_map nx ny nz) h2]
  rw [cellList_length] at h2
  simp

theorem cellList_nodup (nx ny nz : Nat) : (cellList nx ny nz).Nodup := by
  rw [cellList_eq_map]
  refine List.Nodup.map_on ?_ (List.nodup_range _)
  intro a ha b hb heq
  rw [List.mem_range] at ha hb
  obtain ⟨heq1, heq2, heq3⟩ : a / (ny * nz) = b / (ny * nz) ∧
      a / nz % ny = b / nz % ny ∧ a % nz = b % nz := by
    simpa [Prod.ext_iff] using heq
  have hm : a % (ny * nz) = b % (ny * nz) := by
    have ga := Nat.div_add_mod (a % (ny * nz)) nz
    have gb := Nat.div_add_mod (b % (ny * nz)) nz
    rw [(decode_eq ny nz a).1, (decode_eq ny nz a).2, heq2, heq3] at ga
    rw [(decode_eq ny nz b).1, (decode_eq ny nz b).2] at gb
    exact ga.symm.trans gb
  have g1 := Nat.div_add_mod a (ny * nz)
  have g2 := Nat.div_add_mod b (ny * nz)
  rw [heq1, hm] at g1
  exact g1.symm.trans g2

theorem cellList_mem_bounds (nx ny nz : Nat) :
    ∀ p ∈ cellList nx ny nz, p.1 < nx ∧ p.2.1 < ny ∧ p.2.2 < nz := by
  intro p hp
  unfold cellList at hp
  simp only [List.mem_flatMap, List.mem_map, List.mem_range] at hp
  obtain ⟨i, hi, j, hj, k, hk, rfl⟩ := hp
  exact ⟨hi, hj, hk⟩

/-! ### Reshaping lemmas -/

theorem initSt_dimsOk (nx ny nz : Nat) : dimsOk nx ny nz (initSt nx ny nz) :=
  ⟨⟨rfl, rfl, rfl, rfl⟩, ⟨rfl, rfl, rfl, rfl⟩, ⟨rfl, rfl, rfl, rfl⟩, ⟨rfl, rfl, rfl, rfl⟩⟩

theorem writeRow_ok (s : St) (row : CsvData) (i j k nx ny nz : Nat)
    (hd : dimsOk nx ny nz s) (hi : i < nx) (hj : j < ny) (hk : k < nz) :
    ∃ s2, writeRow s row i j k = some s2 ∧ dimsOk nx ny nz s2 ∧
      cellOf s2 (i, j, k) = rowVals row ∧
      (∀ q : Nat × Nat × Nat, q ≠ (i, j, k) → cellOf s2 q = cellOf s q) := by
  obtain ⟨⟨ha0, ha1, ha2, ha3⟩, ⟨hb0, hb1, hb2, hb3⟩, ⟨hc0, hc1, hc2, hc3⟩,
    ⟨he0, he1, he2, he3⟩⟩ := hd
  simp only [writeRow, set4, ha0, ha1, ha2, ha3, hb0, hb1, hb2, hb3,
    hc0, hc1, hc2, hc3, he0, he1, he2, he3, hi, hj, hk, and_true, true_and,
    Nat.zero_lt_succ, Nat.lt_add_one, if_true, show (0:Nat) < 3 from by omega,
    show (1:Nat) < 3 from by omega, show (2:Nat) < 3 from by omega,
    Option.bind_eq_bind, Option.some_bind]
  refine ⟨_, rfl, ?_, ?_, ?_⟩
  · exact ⟨⟨rfl, rfl, rfl, rfl⟩, ⟨rfl, rfl, rfl, rfl⟩, ⟨rfl, rfl, rfl, rfl⟩,
      ⟨rfl, rfl, rfl, rfl⟩⟩
  · simp [cellOf, rowVals, upd4]
  · rintro ⟨a, b, c⟩ hq
    have hq2 : ¬(a = i ∧ b = j ∧ c = k) := by
      intro ⟨h1, h2, h3⟩
      exact hq (by simp [h1, h2, h3])
    simp only [cellOf, upd4]
    simp [hq2]

/-- A successful full run of the reshaping loop: with as many parseable
rows as (distinct, in-bounds) cells, every row lands at its cell and
the leftover input survives untouched. -/
theorem reshapeAux_run (nx ny nz : Nat) :
    ∀ (cells : List (Nat × Nat × Nat)) (rows : List CsvData)
      (extra : List (Option CsvData)) (idx : Nat) (s : St),
      rows.length = cells.length →
      dimsOk nx ny nz s →
      (∀ p ∈ cells, p.1 < nx ∧ p.2.1 < ny ∧ p.2.2 < nz) →
      cells.Nodup →
      ∃ s2, reshapeAux cells idx (rows.map some ++ extra) s =
          .ok (s2, idx + cells.length, extra) ∧
        dimsOk nx ny nz s2 ∧
        (∀ n (hn : n < cells.length) (hr : n < rows.length),
          cellOf s2 (cells.get ⟨n, hn⟩) = rowVals (rows.get ⟨n, hr⟩)) ∧
        (∀ q, q ∉ cells → cellOf s2 q = cellOf s q) := by
  intro cells
  induction cells with
  | nil =>
    intro rows extra idx s hlen hd _ _
    have hr0 : rows = [] := List.length_eq_zero.1 (by simpa using hlen)
    subst hr0
    refine ⟨s, rfl, hd, ?_, fun q _ => rfl⟩
    intro n hn
    exact absurd hn (by simp)
  | cons p cs ih =>
    intro rows extra idx s hlen hd hb hnd
    obtain ⟨i, j, k⟩ := p
    cases rows with
    | nil => simp at hlen
    | cons row rs =>
      simp only [List.length_cons] at hlen
      have hlen2 : rs.length = cs.length := by omega
      have hbp := hb (i, j, k) (by simp)
      obtain ⟨s1, hw, hd1, hcell, hframe⟩ :=
        writeRow_ok s row i j k nx ny nz hd hbp.1 hbp.2.1 hbp.2.2
      have hb2 : ∀ q ∈ cs, q.1 < nx ∧ q.2.1 < ny ∧ q.2.2 < nz :=
        fun q hq => hb q (by simp [hq])
      have hnd2 := List.nodup_cons.1 hnd
      obtain ⟨s2, hrun, hd2, hpoint, hframe2⟩ :=
        ih rs extra (idx + 1) s1 hlen2 hd1 hb2 hnd2.2
      refine ⟨s2, ?_, hd2, ?_, ?_⟩
      · have step : reshapeAux ((i, j, k) :: cs) idx
            ((row :: rs).map some ++ extra) s =
            match writeRow s row i j k with
            | none => Except.error Err.panic
            | some s3 => reshapeAux cs (idx + 1) (rs.map some ++ extra) s3 := rfl
        rw [step, hw]
        show reshapeAux cs (idx + 1) (rs.map some ++ extra) s1 = _
        rw [hrun]
        have harith : idx + 1 + cs.length = idx + ((i, j, k) :: cs).length := by
          simp only [List.length_cons]
          omega
        rw [harith]
      · intro n hn hr
        cases n with
        | zero =>
          show cellOf s2 (i, j, k) = rowVals row
          exact (hframe2 _ hnd2.1).trans hcell
        | succ m =>
          exact hpoint m (Nat.lt_of_succ_lt_succ hn) (Nat.lt_of_succ_lt_succ hr)
      · intro q hq
        rw [List.mem_cons] at hq
        push_neg at hq
        exact (hframe2 q hq.2).trans (hframe q hq.1)

/-- Running out of rows: with fewer parseable rows than cells, the loop
fails naming the first unfilled cell, the one at traversal position
`rows.length`. -/
theorem reshapeAux_short (nx ny nz : Nat) :
    ∀ (cells : List (Nat × Nat × Nat)) (rows : List CsvData) (idx : Nat) (s : St)
      (hlt : rows.length < cells.length),
      dimsOk nx ny nz s →
      (∀ p ∈ cells, p.1 < nx ∧ p.2.1 < ny ∧ p.2.2 < nz) →
      reshapeAux cells idx (rows.map some) s =
        .error (.shortCsv (cells.get ⟨rows.length, hlt⟩).1
          (cells.get ⟨rows.length, hlt⟩).2.1 (cells.get ⟨rows.length, hlt⟩).2.2) := by
  intro cells
  induction cells with
  | nil =>
    intro rows idx s hlt
    exact absurd hlt (by simp)
  | cons p cs ih =>
    intro rows idx s hlt hd hb
    obtain ⟨i, j, k⟩ := p
    cases rows with
    | nil => rfl
    | cons row rs =>
      simp only [List.length_cons] at hlt
      have hlt2 : rs.length < cs.length := by omega
      have hbp := hb (i, j, k) (by simp)
      obtain ⟨s1, hw, hd1, _, _⟩ :=
        writeRow_ok s row i j k nx ny nz hd hbp.1 hbp.2.1 hbp.2.2
      have hb2 : ∀ q ∈ cs, q.1 < nx ∧ q.2.1 < ny ∧ q.2.2 < nz :=
        fun q hq => hb q (by simp [hq])
      have step : reshapeAux ((i, j, k) :: cs) idx ((row :: rs).map some) s =
          match writeRow s row i j k with
          | none => Except.error Err.panic
          | some s3 => reshapeAux cs (idx + 1) (rs.map some) s3 := rfl
      rw [step, hw]
      show reshapeAux cs (idx + 1) (rs.map some) s1 = _
      exact ih rs (idx + 1) s1 hlt2 hd1 hb2

/-- A malformed row within the loop's reach aborts with its 1-based line
number `idx + 2`. -/
theorem reshapeAux_malformed (nx ny nz : Nat) :
    ∀ (cells : List (Nat × Nat × Nat)) (pre : List CsvData)
      (rest : List (Option CsvData)) (idx : Nat) (s : St),
      pre.length < cells.length →
      dimsOk nx ny nz s →
      (∀ p ∈ cells, p.1 < nx ∧ p.2.1 < ny ∧ p.2.2 < nz) →
      reshapeAux cells idx (pre.map some ++ none :: rest) s =
        .error (.parse (idx + pre.length + 2)) := by
  intro cells
  induction cells with
  | nil =>
    intro pre rest idx s hlt
    exact absurd hlt (by simp)
  | cons p cs ih =>
    intro pre rest idx s hlt hd hb
    obtain ⟨i, j, k⟩ := p
    cases pre with
    | nil => rfl
    | cons row rs =>
      simp only [List.length_cons] at hlt
      have hlt2 : rs.length < cs.length := by omega
      have hbp := hb (i, j, k) (by simp)
      obtain ⟨s1, hw, hd1, _, _⟩ :=
        writeRow_ok s row i j k nx ny nz hd hbp.1 hbp.2.1 hbp.2.2
      have hb2 : ∀ q ∈ cs, q.1 < nx ∧ q.2.1 < ny ∧ q.2.2 < nz :=
        fun q hq => hb q (by simp [hq])
      have step : reshapeAux ((i, j, k) :: cs) idx
          ((row :: rs).map some ++ none :: rest) s =
          match writeRow s row i j k with
          | none => Except.error Err.panic
          | some s3 => reshapeAux cs (idx + 1) (rs.map some ++ none :: rest) s3 := rfl
      rw [step, hw]
      show reshapeAux cs (idx + 1) (rs.map some ++ none :: rest) s1 = _
      rw [ih rs rest (idx + 1) s1 hlt2 hd1 hb2]
      have harith : idx + 1 + rs.length + 2 = idx + (row :: rs).length + 2 := by
        simp only [List.length_cons]
        omega
      rw [harith]

/-- The loop's writes never go out of bounds: `panic` is unreachable for
any input row sequence. -/
theorem reshapeAux_no_panic (nx ny nz : Nat) :
    ∀ (cells : List (Nat × Nat × Nat)) (rows : List (Option CsvData)) (idx : Nat) (s : St),
      dimsOk nx ny nz s →
      (∀ p ∈ cells, p.1 < nx ∧ p.2.1 < ny ∧ p.2.2 < nz) →
      reshapeAux cells idx rows s ≠ .error .panic := by
  intro cells
  induction cells with
  | nil =>
    intro rows idx s _ _ h
    exact absurd h (by simp [reshapeAux])
  | cons p cs ih =>
    intro rows idx s hd hb
    obtain ⟨i, j, k⟩ := p
    cases rows with
    | nil => simp [reshapeAux]
    | cons orow rest =>
      cases orow with
      | none => simp [reshapeAux]
      | some row =>
        have hbp := hb (i, j, k) (by simp)
        obtain ⟨s1, hw, hd1, _, _⟩ :=
          writeRow_ok s row i j k nx ny nz hd hbp.1 hbp.2.1 hbp.2.2
        have hb2 : ∀ q ∈ cs, q.1 < nx ∧ q.2.1 < ny ∧ q.2.2 < nz :=
          fun q hq => hb q (by simp [hq])
        have step : reshapeAux ((i, j, k) :: cs) idx (some row :: rest) s =
            match writeRow s row i j k with
            | none => Except.error Err.panic
            | some s3 => reshapeAux cs (idx + 1) rest s3 := rfl
        rw [step, hw]
        exact ih rest (idx + 1) s1 hd1 hb2

/-! ### Magnitude lemmas -/

theorem index4_ok (a : Array4) (c i j k : Nat)
    (hc : c < a.d0) (hi : i < a.d1) (hj : j < a.d2) (hk : k < a.d3) :
    index4 a c i j k = some (a.val c i j k) := by
  simp [index4, hc, hi, hj, hk]

theorem magSqCell_eval (real im : Array4) (i j k nx ny nz : Nat)
    (hr : hasDims real nx ny nz) (hm : hasDims im nx ny nz)
    (hi : i < nx) (hj : j < ny) (hk : k < nz) :
    magSqCell real im i j k = some (magSqVal real im i j k) := by
  obtain ⟨hr0, hr1, hr2, hr3⟩ := hr
  obtain ⟨hm0, hm1, hm2, hm3⟩ := hm
  have er0 := index4_ok real 0 i j k (by rw [hr0]; omega) (by rw [hr1]; omega)
    (by rw [hr2]; omega) (by rw [hr3]; omega)
  have er1 := index4_ok real 1 i j k (by rw [hr0]; omega) (by rw [hr1]; omega)
    (by rw [hr2]; omega) (by rw [hr3]; omega)
  have er2 := index4_ok real 2 i j k (by rw [hr0]; omega) (by rw [hr1]; omega)
    (by rw [hr2]; omega) (by rw [hr3]; omega)
  have em0 := index4_ok im 0 i j k (by rw [hm0]; omega) (by rw [hm1]; omega)
    (by rw [hm2]; omega) (by rw [hm3]; omega)
  have em1 := index4_ok im 1 i j k (by rw [hm0]; omega) (by rw [hm1]; omega)
    (by rw [hm2]; omega) (by rw [hm3]; omega)
  have em2 := index4_ok im 2 i j k (by rw [hm0]; omega) (by rw [hm1]; omega)
    (by rw [hm2]; omega) (by rw [hm3]; omega)
  show magSqAux real im i j k [0, 1, 2] (some 0) = _
  simp only [magSqAux, er0, er1, er2, em0, em1, em2,
    Option.bind_eq_bind, Option.some_bind, magSqVal]

theorem set3_ok (a : Array3) (i j k : Nat) (v : Option ℝ)
    (hi : i < a.d0) (hj : j < a.d1) (hk : k < a.d2) :
    set3 a i j k v = some ⟨a.d0, a.d1, a.d2, upd3 a.val i j k v⟩ := by
  simp [set3, hi, hj, hk]

theorem magAux_run (real im : Array4) (nx ny nz : Nat)
    (hr : hasDims real nx ny nz) (hm : hasDims im nx ny nz) :
    ∀ (cells : List (Nat × Nat × Nat)) (out : Array3),
      dims3 out nx ny nz →
      (∀ p ∈ cells, p.1 < nx ∧ p.2.1 < ny ∧ p.2.2 < nz) →
      cells.Nodup →
      ∃ out2, magAux real im cells out = some out2 ∧ dims3 out2 nx ny nz ∧
        (∀ p ∈ cells,
          out2.val p.1 p.2.1 p.2.2 = fsqrt (magSqVal real im p.1 p.2.1 p.2.2)) ∧
        (∀ q : Nat × Nat × Nat, q ∉ cells →
          out2.val q.1 q.2.1 q.2.2 = out.val q.1 q.2.1 q.2.2) := by
  intro cells
  induction cells with
  | nil =>
    intro out hdo _ _
    exact ⟨out, rfl, hdo, by simp, fun q _ => rfl⟩
  | cons p cs ih =>
    intro out hdo hb hnd
    obtain ⟨i, j, k⟩ := p
    have hbp := hb (i, j, k) (by simp)
    have hmc := magSqCell_eval real im i j k nx ny nz hr hm hbp.1 hbp.2.1 hbp.2.2
    have hset := set3_ok out i j k (fsqrt (magSqVal real im i j k))
      (by rw [hdo.1]; exact hbp.1) (by rw [hdo.2.1]; exact hbp.2.1)
      (by rw [hdo.2.2]; exact hbp.2.2)
    have hnd2 := List.nodup_cons.1 hnd
    obtain ⟨out2, hrun, hd2, hpoint, hframe⟩ :=
      ih ⟨out.d0, out.d1, out.d2, upd3 out.val i j k (fsqrt (magSqVal real im i j k))⟩
        ⟨hdo.1, hdo.2.1, hdo.2.2⟩ (fun q hq => hb q (by simp [hq])) hnd2.2
    refine ⟨out2, ?_, hd2, ?_, ?_⟩
    · have step : magAux real im ((i, j, k) :: cs) out =
          match magSqCell real im i j k with
          | none => none
          | some m =>
            match set3 out i j k (fsqrt m) with
            | none => none
            | some o2 => magAux real im cs o2 := rfl
      rw [step, hmc]
      show (match set3 out i j k (fsqrt (magSqVal real im i j k)) with
        | none => none
        | some o2 => magAux real im cs o2) = _
      rw [hset]
      exact hrun
    · intro q hq
      rcases List.mem_cons.1 hq with rfl | hq2
      · rw [hframe _ hnd2.1]
        simp [upd3]
      · exact hpoint q hq2
    · rintro ⟨qa, qb, qc⟩ hq
      rw [List.mem_cons] at hq
      push_neg at hq
      rw [hframe _ hq.2]
      simp only [upd3]
      rw [if_neg]
      rintro ⟨g1, g2, g3⟩
      exact hq.1 (by simp [g1, g2, g3])

theorem magnitude_complex_run (nx ny nz : Nat) (real im : Array4) (out : Array3)
    (hr : hasDims real nx ny nz) (hm : hasDims im nx ny nz)
    (ho : dims3 out nx ny nz) :
    ∃ out2, magnitude_complex nx ny nz real im out = some out2 ∧
      dims3 out2 nx ny nz ∧
      ∀ i j k, i < nx → j < ny → k < nz →
        out2.val i j k = fsqrt (magSqVal real im i j k) := by
  obtain ⟨out2, hrun, hd2, hpoint, _⟩ := magAux_run real im nx ny nz hr hm
    (cellList nx ny nz) out ho (cellList_mem_bounds nx ny nz) (cellList_nodup nx ny nz)
  refine ⟨out2, hrun, hd2, ?_⟩
  intro i j k hi hj hk
  refine hpoint (i, j, k) ?_
  unfold cellList
  simp only [List.mem_flatMap, List.mem_map, List.mem_range]
  exact ⟨i, hi, j, hj, k, hk, rfl⟩

theorem magSqVal_eval (real im : Array4) (i j k : Nat) (r1 r2 r3 m1 m2 m3 : ℚ)
    (h1 : real.val 0 i j k = some r1) (h2 : real.val 1 i j k = some r2)
    (h3 : real.val 2 i j k = some r3) (h4 : im.val 0 i j k = some m1)
    (h5 : im.val 1 i j k = some m2) (h6 : im.val 2 i j k = some m3) :
    magSqVal real im i j k = some ((r1 ^ 2 + r2 ^ 2 + r3 ^ 2) + (m1 ^ 2 + m2 ^ 2 + m3 ^ 2)) := by
  simp only [magSqVal, h1, h2, h3, h4, h5, h6, fsq, fadd, Option.some.injEq]
  ring

theorem fsqrt_nonneg_eval (q : ℚ) (hq : 0 ≤ q) :
    fsqrt (some q) = some (Real.sqrt (q : ℝ)) := by
  simp [fsqrt, not_lt.2 hq]

/-- The value `magnitude_complex` stores at an in-bounds cell whose six
input components are non-NaN: the square root of the sum of the six
squares. -/
theorem magnitude_value (nx ny nz : Nat) (real im : Array4) (out : Array3)
    (hr : hasDims real nx ny nz) (hm : hasDims im nx ny nz) (ho : dims3 out nx ny nz)
    (i j k : Nat) (hi : i < nx) (hj : j < ny) (hk : k < nz)
    (r1 r2 r3 m1 m2 m3 : ℚ)
    (h1 : real.val 0 i j k = some r1) (h2 : real.val 1 i j k = some r2)
    (h3 : real.val 2 i j k = some r3) (h4 : im.val 0 i j k = some m1)
    (h5 : im.val 1 i j k = some m2) (h6 : im.val 2 i j k = some m3) :
    ∃ out2, magnitude_complex nx ny nz real im out = some out2 ∧
      out2.val i j k =
        some (Real.sqrt (((r1 ^ 2 + r2 ^ 2 + r3 ^ 2) + (m1 ^ 2 + m2 ^ 2 + m3 ^ 2) : ℚ) : ℝ)) := by
  obtain ⟨out2, hrun, _, hpoint⟩ := magnitude_complex_run nx ny nz real im out hr hm ho
  refine ⟨out2, hrun, ?_⟩
  rw [hpoint i j k hi hj hk,
    magSqVal_eval real im i j k r1 r2 r3 m1 m2 m3 h1 h2 h3 h4 h5 h6,
    fsqrt_nonneg_eval]
  positivity

/-! ### Reshape-level helpers -/

/-- A successful reshape at top level, with every row's twelve values at
the cell the div/mod decomposition of its 0-based row index names. -/
theorem reshape_ok (nx ny nz : Nat) (rows : List CsvData)
    (h : rows.length = nx * ny * nz) :
    ∃ s, reshape nx ny nz (rows.map some) = .ok s ∧
      ∀ r (hr : r < rows.length),
        cellOf s (r / (ny * nz), r / nz % ny, r % nz) = rowVals (rows.get ⟨r, hr⟩) := by
  have hlen : rows.length = (cellList nx ny nz).length := by
    rw [cellList_length]
    exact h
  obtain ⟨s2, hrun, _, hpoint, _⟩ := reshapeAux_run nx ny nz (cellList nx ny nz) rows []
    0 (initSt nx ny nz) hlen (initSt_dimsOk nx ny nz)
    (cellList_mem_bounds nx ny nz) (cellList_nodup nx ny nz)
  rw [List.append_nil] at hrun
  refine ⟨s2, ?_, ?_⟩
  · unfold reshape
    rw [hrun]
  · intro r hr
    have hr2 : r < (cellList nx ny nz).length := hlen ▸ hr
    have hp := hpoint r hr2 hr
    rw [List.get_eq_getElem, cellList_getElem nx ny nz r hr2] at hp
    exact hp

theorem writeRow_congr (s : St) (r1 r2 : CsvData) (i j k : Nat)
    (h : rowVals r1 = rowVals r2) : writeRow s r1 i j k = writeRow s r2 i j k := by
  obtain ⟨h1, h2, h3, h4, h5, h6, h7, h8, h9, h10, h11, h12⟩ :
      r1.u1r = r2.u1r ∧ r1.u2r = r2.u2r ∧ r1.u3r = r2.u3r ∧
      r1.u1i = r2.u1i ∧ r1.u2i = r2.u2i ∧ r1.u3i = r2.u3i ∧
      r1.w1r = r2.w1r ∧ r1.w2r = r2.w2r ∧ r1.w3r = r2.w3r ∧
      r1.w1i = r2.w1i ∧ r1.w2i = r2.w2i ∧ r1.w3i = r2.w3i := by
    simpa [rowVals] using h
  simp only [writeRow, h1, h2, h3, h4, h5, h6, h7, h8, h9, h10, h11, h12]

/-- Lockstep run of the loop on two row sequences agreeing on the twelve
field-value columns: the observable results coincide. -/
theorem reshapeAux_congr :
    ∀ (cells : List (Nat × Nat × Nat)) (rows1 rows2 : List CsvData) (idx : Nat) (s : St),
      rows1.length = rows2.length →
      (∀ n (e1 : n < rows1.length) (e2 : n < rows2.length),
        rowVals (rows1.get ⟨n, e1⟩) = rowVals (rows2.get ⟨n, e2⟩)) →
      resKey (reshapeAux cells idx (rows1.map some) s) =
        resKey (reshapeAux cells idx (rows2.map some) s) := by
  intro cells
  induction cells with
  | nil =>
    intro rows1 rows2 idx s hlen _
    simp [reshapeAux, resKey, Except.map, hlen]
  | cons p cs ih =>
    intro rows1 rows2 idx s hlen hvals
    obtain ⟨i, j, k⟩ := p
    cases rows1 with
    | nil =>
      cases rows2 with
      | nil => rfl
      | cons b bs => simp at hlen
    | cons a as =>
      cases rows2 with
      | nil => simp at hlen
      | cons b bs =>
        simp only [List.length_cons] at hlen
        have hv0 := hvals 0 (by simp) (by simp)
        have hw := writeRow_congr s a b i j k hv0
        have step1 : reshapeAux ((i, j, k) :: cs) idx ((a :: as).map some) s =
            match writeRow s a i j k with
            | none => Except.error Err.panic
            | some s3 => reshapeAux cs (idx + 1) (as.map some) s3 := rfl
        have step2 : reshapeAux ((i, j, k) :: cs) idx ((b :: bs).map some) s =
            match writeRow s b i j k with
            | none => Except.error Err.panic
            | some s3 => reshapeAux cs (idx + 1) (bs.map some) s3 := rfl
        rw [step1, step2, hw]
        cases hwb : writeRow s b i j k with
        | none => rfl
        | some s1 =>
          exact ih as bs (idx + 1) s1 (by omega)
            (fun n e1 e2 => hvals (n + 1) (by simpa using e1) (by simpa using e2))

/-! ### The claims -/

/-- C1: during reshaping, grid cells are visited in nested order (outer
loop over the x axis, middle over y, inner over z) and each cell consumes
exactly the next unread row, whose twelve field values land at positions
`(component, i, j, k)` of the vector arrays; equivalently, for an input
of exactly `nx * ny * nz` parseable rows, the 0-based row `r` supplies
cell `(r / (ny * nz), (r / nz) % ny, r % nz)`. -/
theorem c1_rows_fill_cells_in_traversal_order (nx ny nz : Nat) (rows : List CsvData)
    (h : rows.length = nx * ny * nz) :
    ∃ s, reshape nx ny nz (rows.map some) = .ok s ∧
      ∀ r (hr : r < rows.length),
        cellOf s (r / (ny * nz), r / nz % ny, r % nz) = rowVals (rows.get ⟨r, hr⟩) :=
  reshape_ok nx ny nz rows h

/-- Witness for C1 at a concrete 1×2×2 grid with four rows. -/
theorem c1_witness :
    ((exampleRows.length = 1 * 2 * 2) ∧
      ∃ s, reshape 1 2 2 (exampleRows.map some) = .ok s ∧
        ∀ r (hr : r < exampleRows.length),
          cellOf s (r / (2 * 2), r / 2 % 2, r % 2) = rowVals (exampleRows.get ⟨r, hr⟩)) :=
  ⟨rfl, c1_rows_fill_cells_in_traversal_order 1 2 2 exampleRows rfl⟩

/-- C2: row-count validation is exact — exactly `nx * ny * nz` parseable
rows succeed consuming all rows; exhaustion fails naming the first
unfilled cell in traversal order; surplus rows fail with the
leftover-data error. -/
theorem c2_exact_row_count_validation (nx ny nz : Nat) :
    (∀ rows : List CsvData, rows.length = nx * ny * nz →
      ∃ s, reshape nx ny nz (rows.map some) = .ok s) ∧
    (∀ rows : List CsvData, rows.length < nx * ny * nz →
      reshape nx ny nz (rows.map some) =
        .error (.shortCsv (rows.length / (ny * nz)) (rows.length / nz % ny)
          (rows.length % nz))) ∧
    (∀ (rows : List CsvData) (extra : List (Option CsvData)),
      rows.length = nx * ny * nz → extra ≠ [] →
      reshape nx ny nz (rows.map some ++ extra) = .error .leftover) := by
  refine ⟨?_, ?_, ?_⟩
  · intro rows h
    obtain ⟨s, hs, _⟩ := reshape_ok nx ny nz rows h
    exact ⟨s, hs⟩
  · intro rows h
    have hlt : rows.length < (cellList nx ny nz).length := by
      rw [cellList_length]
      exact h
    have hshort := reshapeAux_short nx ny nz (cellList nx ny nz) rows 0 (initSt nx ny nz)
      hlt (initSt_dimsOk nx ny nz) (cellList_mem_bounds nx ny nz)
    rw [List.get_eq_getElem, cellList_getElem nx ny nz rows.length hlt] at hshort
    unfold reshape
    rw [hshort]
  · intro rows extra h hne
    have hlen : rows.length = (cellList nx ny nz).length := by
      rw [cellList_length]
      exact h
    obtain ⟨s2, hrun, -, -, -⟩ := reshapeAux_run nx ny nz (cellList nx ny nz) rows extra
      0 (initSt nx ny nz) hlen (initSt_dimsOk nx ny nz)
      (cellList_mem_bounds nx ny nz) (cellList_nodup nx ny nz)
    unfold reshape
    rw [hrun]
    cases extra with
    | nil => exact absurd rfl hne
    | cons a as => rfl

/-- Witness for C2 at concrete 1×1×2 grids: two rows succeed, one row
fails at cell (0, 0, 1), three rows leave data over. -/
theorem c2_witness :
    (∃ s, reshape 1 1 2
      ([mkRow (some 0) (some 0) (some 0), mkRow (some 0) (some 0) (some 1)].map some) =
      .ok s) ∧
    reshape 1 1 2 ([mkRow (some 0) (some 0) (some 0)].map some) =
      .error (.shortCsv (([mkRow (some 0) (some 0) (some 0)] : List CsvData).length / (1 * 2))
        (([mkRow (some 0) (some 0) (some 0)] : List CsvData).length / 2 % 1)
        (([mkRow (some 0) (some 0) (some 0)] : List CsvData).length % 2)) ∧
    reshape 1 1 2
      ([mkRow (some 0) (some 0) (some 0), mkRow (some 0) (some 0) (some 1)].map some ++
        [some (mkRow (some 0) (some 0) (some 2))]) = .error .leftover := by
  refine ⟨(c2_exact_row_count_validation 1 1 2).1 _ rfl, ?_, ?_⟩
  · exact (c2_exact_row_count_validation 1 1 2).2.1 _ (by decide)
  · exact (c2_exact_row_count_validation 1 1 2).2.2 _ _ rfl (by decide)

/-- C5: a header with zero data rows gives dimensions (0, 0, 0), empty
axis lists, and reshaping succeeds trivially with the empty (all-zero,
zero-extent) arrays. -/
theorem c5_empty_input_boundary :
    determine_spans [] = .ok ((0, 0, 0), ([], [], [])) ∧
    reshape 0 0 0 [] = .ok (initSt 0 0 0) :=
  ⟨rfl, rfl⟩

/-- C6: the first malformed data row, at 0-based index `idx`, aborts both
passes with a parse error naming source line `idx + 2` (1-based, counting
the header); for the reshaper this is the behaviour whenever the
malformed row is within the `nx * ny * nz` rows it consumes. -/
theorem c6_malformed_row_line_number :
    (∀ (pre : List CsvData) (rest : List (Option CsvData)),
      determine_spans (pre.map some ++ none :: rest) =
        .error (.parse (pre.length + 2))) ∧
    (∀ (nx ny nz : Nat) (pre : List CsvData) (rest : List (Option CsvData)),
      pre.length < nx * ny * nz →
      reshape nx ny nz (pre.map some ++ none :: rest) =
        .error (.parse (pre.length + 2))) := by
  constructor
  · intro pre rest
    unfold determine_spans
    rw [determine_spansAux_malformed rest pre 0 [] [] []]
    show Except.error (Err.parse (0 + pre.length + 2)) = _
    rw [Nat.zero_add]
  · intro nx ny nz pre rest h
    have hlt : pre.length < (cellList nx ny nz).length := by
      rw [cellList_length]
      exact h
    have hmal := reshapeAux_malformed nx ny nz (cellList nx ny nz) pre rest 0
      (initSt nx ny nz) hlt (initSt_dimsOk nx ny nz) (cellList_mem_bounds nx ny nz)
    unfold reshape
    rw [hmal]
    show Except.error (Err.parse (0 + pre.length + 2)) = _
    rw [Nat.zero_add]

/-- Witness for C6: a malformed second data row (index 1) is reported as
line 3 by both passes. -/
theorem c6_witness :
    determine_spans ([mkRow (some 0) (some 0) (some 0)].map some ++ none :: []) =
      .error (.parse (([mkRow (some 0) (some 0) (some 0)] : List CsvData).length + 2)) ∧
    reshape 1 1 2 ([mkRow (some 0) (some 0) (some 0)].map some ++ none :: []) =
      .error (.parse (([mkRow (some 0) (some 0) (some 0)] : List CsvData).length + 2)) :=
  ⟨c6_malformed_row_line_number.1 _ [],
   c6_malformed_row_line_number.2 1 1 2 _ [] (by decide)⟩

/-- C7: the reshaper never reads the coordinate columns — two parseable
row sequences of equal length agreeing on the twelve field-value columns
reshape to identical results, whatever their x, y, z entries. -/
theorem c7_coordinates_do_not_influence_reshaping (nx ny nz : Nat)
    (rows1 rows2 : List CsvData) (hlen : rows1.length = rows2.length)
    (hvals : ∀ n (e1 : n < rows1.length) (e2 : n < rows2.length),
      rowVals (rows1.get ⟨n, e1⟩) = rowVals (rows2.get ⟨n, e2⟩)) :
    reshape nx ny nz (rows1.map some) = reshape nx ny nz (rows2.map some) := by
  have hkey := reshapeAux_congr (cellList nx ny nz) rows1 rows2 0 (initSt nx ny nz)
    hlen hvals
  unfold reshape
  cases e1 : reshapeAux (cellList nx ny nz) 0 (rows1.map some) (initSt nx ny nz) with
  | error ea =>
    cases e2 : reshapeAux (cellList nx ny nz) 0 (rows2.map some) (initSt nx ny nz) with
    | error eb =>
      rw [e1, e2] at hkey
      simp only [resKey, Except.map] at hkey
      cases hkey
      rfl
    | ok t =>
      rw [e1, e2] at hkey
      simp [resKey, Except.map] at hkey
  | ok t1 =>
    cases e2 : reshapeAux (cellList nx ny nz) 0 (rows2.map some) (initSt nx ny nz) with
    | error eb =>
      rw [e1, e2] at hkey
      simp [resKey, Except.map] at hkey
    | ok t2 =>
      rw [e1, e2] at hkey
      obtain ⟨s1, i1, rest1⟩ := t1
      obtain ⟨s2, i2, rest2⟩ := t2
      simp only [resKey, Except.map, Except.ok.injEq, Prod.mk.injEq] at hkey
      obtain ⟨hs, -, hrl⟩ := hkey
      subst hs
      cases rest1 with
      | nil =>
        cases rest2 with
        | nil => rfl
        | cons c cs => simp at hrl
      | cons c cs =>
        cases rest2 with
        | nil => simp at hrl
        | cons d ds => rfl

/-- Witness for C7: one row whose coordinates differ arbitrarily but
whose field values agree reshapes identically. -/
theorem c7_witness :
    (([mkRow (some 5) (some 6) (some 7)] : List CsvData).length =
      ([mkRow (some 1) none (some 0)] : List CsvData).length) ∧
    reshape 1 1 1 ([mkRow (some 5) (some 6) (some 7)].map some) =
      reshape 1 1 1 ([mkRow (some 1) none (some 0)].map some) :=
  ⟨rfl, c7_coordinates_do_not_influence_reshaping 1 1 1 _ _ rfl
    (fun n e1 _ => by
      match n, e1 with
      | 0, _ => rfl)⟩

/-- C3: span discovery appends a coordinate only when absent under the
exact floating-point equality test, so each axis list has no two entries
the test equates, its length (the grid dimension) is the number of
distinct values encountered, and the order is first-appearance order —
x values seen as 2, 1, 2, 3 give the list [2, 1, 3], not sorted. -/
theorem c3_span_discovery_distinct_first_appearance :
    (∀ (rows : List CsvData) (dims : Nat × Nat × Nat) (xs ys zs : List F),
      determine_spans (rows.map some) = .ok (dims, (xs, ys, zs)) →
      (xs.Pairwise (fun a b => feq a b = false) ∧
        ys.Pairwise (fun a b => feq a b = false) ∧
        zs.Pairwise (fun a b => feq a b = false)) ∧
      dims = (xs.length, ys.length, zs.length) ∧
      ((∀ r ∈ rows, r.x ≠ none) → xs.length = ((rows.map (·.x)).toFinset).card) ∧
      ((∀ r ∈ rows, r.y ≠ none) → ys.length = ((rows.map (·.y)).toFinset).card) ∧
      ((∀ r ∈ rows, r.z ≠ none) → zs.length = ((rows.map (·.z)).toFinset).card)) ∧
    determine_spans (exampleRows.map some) =
      .ok ((3, 1, 1), ([some 2, some 1, some 3], [some 0], [some 0])) := by
  constructor
  · intro rows dims xs ys zs hok
    rw [determine_spans_ok] at hok
    simp only [Except.ok.injEq, Prod.mk.injEq] at hok
    obtain ⟨hd, hx, hy, hz⟩ := hok
    subst hx
    subst hy
    subst hz
    subst hd
    refine ⟨⟨spanFold_pairwise _ rows [] List.Pairwise.nil,
      spanFold_pairwise _ rows [] List.Pairwise.nil,
      spanFold_pairwise _ rows [] List.Pairwise.nil⟩, rfl, ?_, ?_, ?_⟩
    · intro hnn
      exact spanFold_length _ rows hnn
    · intro hnn
      exact spanFold_length _ rows hnn
    · intro hnn
      exact spanFold_length _ rows hnn
  · rfl

/-- Witness for C3: the 2, 1, 2, 3 example — the x list is [2, 1, 3] in
first-appearance order, pairwise-distinct, of length equal to the number
of distinct x values. -/
theorem c3_witness :
    (([some 2, some 1, some 3] : List F).Pairwise (fun a b => feq a b = false) ∧
      ([some 0] : List F).Pairwise (fun a b => feq a b = false) ∧
      ([some 0] : List F).Pairwise (fun a b => feq a b = false)) ∧
    ([some 2, some 1, some 3] : List F).length =
      ((exampleRows.map (·.x)).toFinset).card :=
  ⟨(c3_span_discovery_distinct_first_appearance.1 exampleRows (3, 1, 1)
      [some 2, some 1, some 3] [some 0] [some 0] rfl).1,
   (c3_span_discovery_distinct_first_appearance.1 exampleRows (3, 1, 1)
      [some 2, some 1, some 3] [some 0] [some 0] rfl).2.2.1 (by decide)⟩

/-- C8: because the membership test uses IEEE equality and NaN is not
equal to itself, every NaN coordinate is appended again — each axis list
carries exactly as many NaN entries as the input had NaN coordinates on
that axis, so the no-duplicates invariant holds only for non-NaN values
and the grid dimension counts each NaN occurrence separately. -/
theorem c8_nan_coordinates_counted_separately :
    (∀ (rows : List CsvData) (dims : Nat × Nat × Nat) (xs ys zs : List F),
      determine_spans (rows.map some) = .ok (dims, (xs, ys, zs)) →
      xs.count none = (rows.map (·.x)).count none ∧
      ys.count none = (rows.map (·.y)).count none ∧
      zs.count none = (rows.map (·.z)).count none) ∧
    determine_spans (nanRows.map some) =
      .ok ((2, 1, 1), ([none, none], [some 0], [some 0])) := by
  constructor
  · intro rows dims xs ys zs hok
    rw [determine_spans_ok] at hok
    simp only [Except.ok.injEq, Prod.mk.injEq] at hok
    obtain ⟨-, hx, hy, hz⟩ := hok
    subst hx
    subst hy
    subst hz
    refine ⟨?_, ?_, ?_⟩
    · simpa using count_nan_spanFold (·.x) rows []
    · simpa using count_nan_spanFold (·.y) rows []
    · simpa using count_nan_spanFold (·.z) rows []
  · rfl

/-- Witness for C8: two rows with NaN x coordinates put two NaN entries
on the x axis list, making the x dimension 2. -/
theorem c8_witness :
    ([none, none] : List F).count none = (nanRows.map (·.x)).count none ∧
    ([some 0] : List F).count none = (nanRows.map (·.y)).count none ∧
    ([some 0] : List F).count none = (nanRows.map (·.z)).count none :=
  (c8_nan_coordinates_counted_separately.1 nanRows (2, 1, 1)
    [none, none] [some 0] [some 0] rfl)

/-- C4: `magnitude_complex` writes at each in-bounds cell the Euclidean
norm of the 6-vector of the three real and three imaginary components,
`sqrt(Σ real² + Σ imag²)`; on a single-cell grid, real (1,0,0) with
imaginary (0,0,0) gives 1, and real (1,1,1) with imaginary (1,1,1) gives
sqrt 6. -/
theorem c4_magnitude_is_euclidean_norm :
    (∀ (nx ny nz : Nat) (real im : Array4) (out : Array3),
      hasDims real nx ny nz → hasDims im nx ny nz → dims3 out nx ny nz →
      ∀ (i j k : Nat), i < nx → j < ny → k < nz →
      ∀ (r1 r2 r3 m1 m2 m3 : ℚ),
        real.val 0 i j k = some r1 → real.val 1 i j k = some r2 →
        real.val 2 i j k = some r3 → im.val 0 i j k = some m1 →
        im.val 1 i j k = some m2 → im.val 2 i j k = some m3 →
        ∃ out2, magnitude_complex nx ny nz real im out = some out2 ∧
          out2.val i j k = some (Real.sqrt
            (((r1 ^ 2 + r2 ^ 2 + r3 ^ 2) + (m1 ^ 2 + m2 ^ 2 + m3 ^ 2) : ℚ) : ℝ))) ∧
    (∃ out2, magnitude_complex 1 1 1 (constArr4 (some 1) (some 0) (some 0))
        (constArr4 (some 0) (some 0) (some 0)) (zeros3 1 1 1) = some out2 ∧
      out2.val 0 0 0 = some (1 : ℝ)) ∧
    (∃ out2, magnitude_complex 1 1 1 (constArr4 (some 1) (some 1) (some 1))
        (constArr4 (some 1) (some 1) (some 1)) (zeros3 1 1 1) = some out2 ∧
      out2.val 0 0 0 = some (Real.sqrt 6)) := by
  refine ⟨?_, ?_, ?_⟩
  · intro nx ny nz real im out hr hm ho i j k hi hj hk r1 r2 r3 m1 m2 m3 h1 h2 h3 h4 h5 h6
    exact magnitude_value nx ny nz real im out hr hm ho i j k hi hj hk
      r1 r2 r3 m1 m2 m3 h1 h2 h3 h4 h5 h6
  · obtain ⟨out2, hrun, hval⟩ := magnitude_value 1 1 1
      (constArr4 (some 1) (some 0) (some 0)) (constArr4 (some 0) (some 0) (some 0))
      (zeros3 1 1 1) ⟨rfl, rfl, rfl, rfl⟩ ⟨rfl, rfl, rfl, rfl⟩ ⟨rfl, rfl, rfl⟩
      0 0 0 (by omega) (by omega) (by omega) 1 0 0 0 0 0 rfl rfl rfl rfl rfl rfl
    refine ⟨out2, hrun, ?_⟩
    rw [hval]
    norm_num
  · obtain ⟨out2, hrun, hval⟩ := magnitude_value 1 1 1
      (constArr4 (some 1) (some 1) (some 1)) (constArr4 (some 1) (some 1) (some 1))
      (zeros3 1 1 1) ⟨rfl, rfl, rfl, rfl⟩ ⟨rfl, rfl, rfl, rfl⟩ ⟨rfl, rfl, rfl⟩
      0 0 0 (by omega) (by omega) (by omega) 1 1 1 1 1 1 rfl rfl rfl rfl rfl rfl
    refine ⟨out2, hrun, ?_⟩
    rw [hval]
    norm_num

/-- Witness for C4's quantified part at the all-ones single-cell grid. -/
theorem c4_witness :
    ∃ out2, magnitude_complex 1 1 1 (constArr4 (some 1) (some 1) (some 1))
        (constArr4 (some 1) (some 1) (some 1)) (zeros3 1 1 1) = some out2 ∧
      out2.val 0 0 0 = some (Real.sqrt
        (((1 ^ 2 + 1 ^ 2 + 1 ^ 2) + (1 ^ 2 + 1 ^ 2 + 1 ^ 2) : ℚ) : ℝ)) :=
  c4_magnitude_is_euclidean_norm.1 1 1 1
    (constArr4 (some 1) (some 1) (some 1)) (constArr4 (some 1) (some 1) (some 1))
    (zeros3 1 1 1) ⟨rfl, rfl, rfl, rfl⟩ ⟨rfl, rfl, rfl, rfl⟩ ⟨rfl, rfl, rfl⟩
    0 0 0 (by decide) (by decide) (by decide) 1 1 1 1 1 1 rfl rfl rfl rfl rfl rfl

/-- C9: with arrays of the declared shapes, every index `magnitude_complex`
and the reshaping loop perform is in bounds — the panic branch of
indexing is unreachable. -/
theorem c9_indexing_in_bounds :
    (∀ (nx ny nz : Nat) (real im : Array4) (out : Array3),
      hasDims real nx ny nz → hasDims im nx ny nz → dims3 out nx ny nz →
      (magnitude_complex nx ny nz real im out).isSome = true) ∧
    (∀ (nx ny nz : Nat) (rows : List (Option CsvData)),
      reshape nx ny nz rows ≠ .error .panic) := by
  constructor
  · intro nx ny nz real im out hr hm ho
    obtain ⟨out2, hrun, -, -⟩ := magnitude_complex_run nx ny nz real im out hr hm ho
    rw [hrun]
    rfl
  · intro nx ny nz rows
    have hnp := reshapeAux_no_panic nx ny nz (cellList nx ny nz) rows 0 (initSt nx ny nz)
      (initSt_dimsOk nx ny nz) (cellList_mem_bounds nx ny nz)
    unfold reshape
    cases e : reshapeAux (cellList nx ny nz) 0 rows (initSt nx ny nz) with
    | error e2 =>
      have hne : e2 ≠ Err.panic := by
        intro hpe
        rw [e, hpe] at hnp
        exact hnp rfl
      show Except.error e2 ≠ Except.error Err.panic
      intro hh
      injection hh with h3
      exact hne h3
    | ok t =>
      obtain ⟨s, idx2, rest⟩ := t
      cases rest with
      | nil =>
        show (Except.ok s : Except Err St) ≠ Except.error Err.panic
        simp
      | cons a as =>
        show (Except.error Err.leftover : Except Err St) ≠ Except.error Err.panic
        simp

/-- Witness for C9's quantified parts at concrete shapes and input. -/
theorem c9_witness :
    (magnitude_complex 1 1 1 (zeros4 3 1 1 1) (zeros4 3 1 1 1) (zeros3 1 1 1)).isSome
      = true ∧
    reshape 1 1 1 [none, none] ≠ .error .panic :=
  ⟨c9_indexing_in_bounds.1 1 1 1 (zeros4 3 1 1 1) (zeros4 3 1 1 1) (zeros3 1 1 1)
    ⟨rfl, rfl, rfl, rfl⟩ ⟨rfl, rfl, rfl, rfl⟩ ⟨rfl, rfl, rfl⟩,
   c9_indexing_in_bounds.2 1 1 1 [none, none]⟩

/-- C10: at any in-bounds cell whose six input components are non-NaN,
the value `magnitude_complex` writes is a non-NaN number that is
nonnegative. -/
theorem c10_magnitude_nonnegative (nx ny nz : Nat) (real im : Array4) (out : Array3)
    (hr : hasDims real nx ny nz) (hm : hasDims im nx ny nz) (ho : dims3 out nx ny nz)
    (i j k : Nat) (hi : i < nx) (hj : j < ny) (hk : k < nz)
    (h1 : real.val 0 i j k ≠ none) (h2 : real.val 1 i j k ≠ none)
    (h3 : real.val 2 i j k ≠ none) (h4 : im.val 0 i j k ≠ none)
    (h5 : im.val 1 i j k ≠ none) (h6 : im.val 2 i j k ≠ none) :
    ∃ out2 r, magnitude_complex nx ny nz real im out = some out2 ∧
      out2.val i j k = some r ∧ 0 ≤ r := by
  obtain ⟨r1, e1⟩ := Option.ne_none_iff_exists'.1 h1
  obtain ⟨r2, e2⟩ := Option.ne_none_iff_exists'.1 h2
  obtain ⟨r3, e3⟩ := Option.ne_none_iff_exists'.1 h3
  obtain ⟨m1, e4⟩ := Option.ne_none_iff_exists'.1 h4
  obtain ⟨m2, e5⟩ := Option.ne_none_iff_exists'.1 h5
  obtain ⟨m3, e6⟩ := Option.ne_none_iff_exists'.1 h6
  obtain ⟨out2, hrun, hval⟩ := magnitude_value nx ny nz real im out hr hm ho
    i j k hi hj hk r1 r2 r3 m1 m2 m3 e1 e2 e3 e4 e5 e6
  exact ⟨out2, _, hrun, hval, Real.sqrt_nonneg _⟩

/-- Witness for C10 at a concrete single-cell grid. -/
theorem c10_witness :
    ∃ out2 r, magnitude_complex 1 1 1 (constArr4 (some 1) (some 0) (some 0))
        (constArr4 (some 0) (some 0) (some 0)) (zeros3 1 1 1) = some out2 ∧
      out2.val 0 0 0 = some r ∧ 0 ≤ r :=
  c10_magnitude_nonnegative 1 1 1 (constArr4 (some 1) (some 0) (some 0))
    (constArr4 (some 0) (some 0) (some 0)) (zeros3 1 1 1)
    ⟨rfl, rfl, rfl, rfl⟩ ⟨rfl, rfl, rfl, rfl⟩ ⟨rfl, rfl, rfl⟩
    0 0 0 (by decide) (by decide) (by decide)
    (by decide) (by decide) (by decide) (by decide) (by decide) (by decide)

